import Mathlib

/-!
# Verification of the runestick virtual machine core

A shallow embedding of the execution engine of the `rune` repository
(crates/runestick/src/vm/mod.rs, crates/runestick/src/stream.rs and
crates/rune/src/index_scopes.rs), together with theorems settling the
specification claims about it.

Conventions of the embedding:
* The value stack is represented top-first: the head of `Stack.values` is
  the top of the stack, so `push` is `cons`.
* Machine integers (`i64`) are represented as `Int` with explicit range
  checks in the checked arithmetic operations.
* IEEE-754 doubles are abstracted: the `FP` type records only finiteness
  plus an identity code, and the arithmetic/comparison on floats is a
  `FloatOps` parameter threaded through the operations that need it.
* Fallible operations return `Except VmError`.
* Definitions for parts of the repository that are not in the provided
  sources (the stack, the shared-value plumbing, futures, `VmExecution`)
  carry a doc comment starting with `Modelled from the spec:`.
-/

namespace Rune

/-- Modelled from the spec: the tag of a `Value` variant (the source's
`ValueTypeInfo`, used in error payloads and for instance-method hashing;
crates/runestick/src/value.rs is not among the provided sources). -/
inductive TypeTag where
  | unit
  | bool
  | byte
  | char
  | integer
  | float
  | staticString
  | string
  | bytes
  | vec
  | tuple
  | object
  | typedTuple
  | typedObject
  | option
  | result
  | future
  | stream
  | type
deriving DecidableEq, Repr

/-- Numeric code of a type tag, used to build instance-function hashes. -/
def TypeTag.code : TypeTag → Nat
  | .unit => 0
  | .bool => 1
  | .byte => 2
  | .char => 3
  | .integer => 4
  | .float => 5
  | .staticString => 6
  | .string => 7
  | .bytes => 8
  | .vec => 9
  | .tuple => 10
  | .object => 11
  | .typedTuple => 12
  | .typedObject => 13
  | .option => 14
  | .result => 15
  | .future => 16
  | .stream => 17
  | .type => 18

/-- Modelled from the spec: an IEEE-754 double, abstracted to its
finiteness (all the virtual machine inspects is `is_finite`) plus an
identity code distinguishing concrete floats.  The actual arithmetic and
comparisons are supplied separately through `FloatOps`. -/
structure FP where
  isFinite : Bool
  code : Nat
deriving DecidableEq, Repr

/-- Modelled from the spec: the IEEE-754 double operations used by the
virtual machine, kept abstract and passed as a parameter. -/
structure FloatOps where
  add : FP → FP → FP
  sub : FP → FP → FP
  mul : FP → FP → FP
  div : FP → FP → FP
  lt : FP → FP → Bool
  le : FP → FP → Bool

/-- The runestick value model (the source's `Value` enum).  Heap values
(`Shared<T>` cells) are represented by their contents; runtime borrow
accounting is not modelled, so every borrow in the embedded operations
succeeds.  A `future` is abstracted by whether it is already completed,
the rank at which it completes relative to other pending futures, and the
value it produces. -/
inductive Value where
  | unit
  | bool (b : Bool)
  | byte (b : Nat)
  | char (c : Char)
  | integer (n : Int)
  | float (f : FP)
  | staticString (s : String)
  | string (s : String)
  | bytes (b : List Nat)
  | vec (items : List Value)
  | tuple (items : List Value)
  | object (entries : List (String × Value))
  | typedTuple (ty : Nat) (items : List Value)
  | typedObject (ty : Nat) (entries : List (String × Value))
  | option (o : Option Value)
  | result (r : Value ⊕ Value)
  | future (completed : Bool) (rank : Nat) (val : Value)
  | type (hash : Nat)

/-- The variant tag of a value (the source's `Value::type_info`). -/
def Value.typeTag : Value → TypeTag
  | .unit => .unit
  | .bool _ => .bool
  | .byte _ => .byte
  | .char _ => .char
  | .integer _ => .integer
  | .float _ => .float
  | .staticString _ => .staticString
  | .string _ => .string
  | .bytes _ => .bytes
  | .vec _ => .vec
  | .tuple _ => .tuple
  | .object _ => .object
  | .typedTuple _ _ => .typedTuple
  | .typedObject _ _ => .typedObject
  | .option _ => .option
  | .result _ => .result
  | .future _ _ _ => .future
  | .type _ => .type

/-- Errors raised by the execution of the virtual machine (the source's
`VmError`, restricted to the kinds reachable from the embedded
operations; `generatorComplete` is the stream module's
`VmErrorKind::GeneratorComplete`). -/
inductive VmError where
  | stackError
  | overflow
  | underflow
  | divideByZero
  | ipOutOfBounds
  | unsupportedBinaryOperation (op : String) (lhs rhs : TypeTag)
  | missingStaticString (slot : Nat)
  | missingStaticObjectKeys (slot : Nat)
  | unsupportedIndexGet (target index : TypeTag)
  | valueConversion (actual : TypeTag)
  | generatorComplete
deriving DecidableEq, Repr

/-- Insertion into an insertion-ordered string-keyed object (the
source's `Object`, an ordered map): replaces in place when the key is
present, appends otherwise. -/
def objInsert (o : List (String × Value)) (k : String) (v : Value) :
    List (String × Value) :=
  match o with
  | [] => [(k, v)]
  | (k', v') :: rest =>
    if k' = k then (k, v) :: rest else (k', v') :: objInsert rest k v

/-- Lookup in an insertion-ordered object. -/
def objGet (o : List (String × Value)) (k : String) : Option Value :=
  match o with
  | [] => none
  | (k', v') :: rest => if k' = k then some v' else objGet rest k

/-! ## The value stack -/

/-- Modelled from the spec: the growable value stack with a per-frame
watermark (crates/runestick/src/stack.rs is not among the provided
sources; section 4.2 of the spec describes the operations).  `values` is
top-first; `stack_top` counts the slots, from the bottom, that belong to
outer frames and may not be popped by the current frame. -/
structure Stack where
  values : List Value
  stack_top : Nat

/-- The empty stack. -/
def Stack.new : Stack := ⟨[], 0⟩

/-- Push a value on the top of the stack. -/
def Stack.push (s : Stack) (v : Value) : Stack :=
  { s with values := v :: s.values }

/-- Modelled from the spec: pop the top of the stack; popping below the
current frame's watermark (or from an empty stack) is a stack error. -/
def Stack.pop (s : Stack) : Except VmError (Value × Stack) :=
  if s.values.length = s.stack_top then .error .stackError
  else
    match s.values with
    | [] => .error .stackError
    | v :: rest => .ok (v, { s with values := rest })

/-- Modelled from the spec: record a call-boundary watermark.  Per
section 4.6, the recorded watermark equals the stack length at call time
minus the arguments consumed by the callee; it becomes the stack's
current watermark and is returned for storage in the call frame. -/
def Stack.push_stack_top (s : Stack) (args : Nat) : Except VmError (Nat × Stack) :=
  if args ≤ s.values.length then
    let top := s.values.length - args
    .ok (top, { s with stack_top := top })
  else .error .stackError

/-- Modelled from the spec: restore a call-boundary watermark, discarding
any stray values above it (section 4.6: `pop_call_frame` asserts there
are no stray values above `stack_top` by restoring to `stack_top`). -/
def Stack.pop_stack_top (s : Stack) (top : Nat) : Except VmError Stack :=
  if top ≤ s.values.length then
    .ok ⟨s.values.drop (s.values.length - top), top⟩
  else .error .stackError

/-- Modelled from the spec: assert stack balance on the final return (the
stack holds exactly the slots below the watermark). -/
def Stack.check_stack_top (s : Stack) : Except VmError Unit :=
  if s.values.length = s.stack_top then .ok () else .error .stackError

/-! ## The virtual machine state -/

/-- A call frame: the stored return instruction pointer and the stack
watermark recorded at call time. -/
structure CallFrame where
  ip : Nat
  stack_top : Nat
deriving DecidableEq, Repr

/-- The virtual machine state.  `call_frames` is most-recent-first. -/
structure Vm where
  ip : Nat
  stack : Stack
  exited : Bool
  call_frames : List CallFrame
  branch : Option Nat

/-- A fresh virtual machine (the source's `Vm::new`). -/
def Vm.new : Vm :=
  { ip := 0, stack := Stack.new, exited := false, call_frames := [], branch := none }

/-- Adjust the instruction pointer by a signed offset; going below zero
is `IpOutOfBounds` (the source's `Vm::modify_ip`, built on `checked_sub`). -/
def Vm.modify_ip (vm : Vm) (offset : Int) : Except VmError Vm :=
  if offset < 0 then
    if offset.natAbs ≤ vm.ip then .ok { vm with ip := vm.ip - offset.natAbs }
    else .error .ipOutOfBounds
  else .ok { vm with ip := vm.ip + offset.toNat }

/-! ## Compilation unit and context interfaces -/

/-- The instruction subset of the source's `Inst` enum covered by this
development. -/
inductive Inst where
  | add
  | sub
  | mul
  | div
  | gt
  | gte
  | lt
  | lte
  | pop
  | integer (number : Int)
  | float (number : FP)
  | bool (value : Bool)
  | unit
  | jump (offset : Int)
  | jumpIf (offset : Int)
  | jumpIfNot (offset : Int)
  | jumpIfBranch (branch : Nat) (offset : Int)
  | indexGet
  | object (slot : Nat)
  | typedObject (ty : Nat) (slot : Nat)
  | select (len : Nat)
  | ret
  | retUnit

/-- Modelled from the spec: the read-only compilation unit interface
(section 6): instructions, interned strings and object-key tuples looked
up by slot. -/
structure CompilationUnit where
  instructions : List Inst
  static_strings : List String
  static_object_keys : List (List String)

/-- Bounds-checked instruction fetch. -/
def CompilationUnit.instruction_at (u : CompilationUnit) (ip : Nat) : Option Inst :=
  u.instructions.get? ip

/-- Interned string lookup; absence is `MissingStaticString`. -/
def CompilationUnit.lookup_string (u : CompilationUnit) (slot : Nat) :
    Except VmError String :=
  match u.static_strings.get? slot with
  | some s => .ok s
  | none => .error (.missingStaticString slot)

/-- Ordered object-key tuple lookup. -/
def CompilationUnit.lookup_object_keys (u : CompilationUnit) (slot : Nat) :
    Option (List String) :=
  u.static_object_keys.get? slot

/-- Modelled from the spec: combine a value's type with a method hash to
locate instance methods; any injective pairing serves as the 64-bit hash
combination (crates/runestick/src/hash.rs is not among the provided
sources). -/
def hashInstanceFunction (ty : TypeTag) (hash : Nat) : Nat :=
  Nat.pair ty.code hash

/-- Modelled from the spec: the read-only context interface restricted to
native handler lookup by hash; a handler mutates the stack given an
argument count. -/
structure Context where
  handlers : Nat → Option (Stack → Nat → Except VmError Stack)

/-- Handler lookup. -/
def Context.lookup (c : Context) (hash : Nat) :
    Option (Stack → Nat → Except VmError Stack) :=
  c.handlers hash

/-- Modelled from the spec: the opaque method hashes `crate::ADD`,
`crate::SUB`, `crate::MUL`, `crate::DIV`; only their distinctness
matters. -/
def ADD : Nat := 0

/-- See `ADD`. -/
def SUB : Nat := 1

/-- See `ADD`. -/
def MUL : Nat := 2

/-- See `ADD`. -/
def DIV : Nat := 3

/-! ## Checked 64-bit integer arithmetic -/

/-- Least `i64`. -/
def I64_MIN : Int := -(2 ^ 63)

/-- Greatest `i64`. -/
def I64_MAX : Int := 2 ^ 63 - 1

/-- `i64::checked_add`. -/
def checked_add (a b : Int) : Option Int :=
  let c := a + b
  if I64_MIN ≤ c ∧ c ≤ I64_MAX then some c else none

/-- `i64::checked_sub`. -/
def checked_sub (a b : Int) : Option Int :=
  let c := a - b
  if I64_MIN ≤ c ∧ c ≤ I64_MAX then some c else none

/-- `i64::checked_mul`. -/
def checked_mul (a b : Int) : Option Int :=
  let c := a * b
  if I64_MIN ≤ c ∧ c ≤ I64_MAX then some c else none

/-- `i64::checked_div`: division truncates toward zero; fails on a zero
divisor and on `i64::MIN / -1`. -/
def checked_div (a b : Int) : Option Int :=
  if b = 0 then none
  else
    let q := Int.tdiv a b
    if I64_MIN ≤ q ∧ q ≤ I64_MAX then some q else none

/-! ## Value conversions -/

/-- The source's `Value::into_bool`. -/
def Value.into_bool : Value → Except VmError Bool
  | .bool b => .ok b
  | v => .error (.valueConversion v.typeTag)

/-- The source's `Value::into_future` (the shared future cell is
abstracted into its completion flag, completion rank and value). -/
def Value.into_future : Value → Except VmError (Bool × Nat × Value)
  | .future completed rank val => .ok (completed, rank, val)
  | v => .error (.valueConversion v.typeTag)

/-! ## Arithmetic operations -/

/-- The body of the source's `numeric_ops!` expansion: both integers use
the checked operation (a checked failure raises `err`); both floats use
the float operation (a non-finite result raises `err`); otherwise the
instance handler for `fnHash` on the left operand's type is looked up in
the context, a miss raising `UnsupportedBinaryOperation`, and a hit
re-pushing `(rhs, lhs)` and invoking the handler with one argument. -/
def numericOp (ctx : Context) (fnHash : Nat) (opName : String)
    (checked : Int → Int → Option Int) (fop : FP → FP → FP) (err : VmError)
    (s : Stack) (a b : Value) : Except VmError Stack :=
  match a, b with
  | .integer x, .integer y =>
    match checked x y with
    | some v => .ok (s.push (.integer v))
    | none => .error err
  | .float x, .float y =>
    if (fop x y).isFinite then .ok (s.push (.float (fop x y)))
    else .error err
  | x, y =>
    match ctx.lookup (hashInstanceFunction x.typeTag fnHash) with
    | none => .error (.unsupportedBinaryOperation opName x.typeTag y.typeTag)
    | some h => h ((s.push y).push x) 1

/-- The source's `Vm::op_add`. -/
def Vm.op_add (vm : Vm) (F : FloatOps) (ctx : Context) : Except VmError Vm := do
  let (b, s1) ← vm.stack.pop
  let (a, s2) ← s1.pop
  let s3 ← numericOp ctx ADD "+" checked_add F.add .overflow s2 a b
  .ok { vm with stack := s3 }

/-- The source's `Vm::op_sub`. -/
def Vm.op_sub (vm : Vm) (F : FloatOps) (ctx : Context) : Except VmError Vm := do
  let (b, s1) ← vm.stack.pop
  let (a, s2) ← s1.pop
  let s3 ← numericOp ctx SUB "-" checked_sub F.sub .underflow s2 a b
  .ok { vm with stack := s3 }

/-- The source's `Vm::op_mul`. -/
def Vm.op_mul (vm : Vm) (F : FloatOps) (ctx : Context) : Except VmError Vm := do
  let (b, s1) ← vm.stack.pop
  let (a, s2) ← s1.pop
  let s3 ← numericOp ctx MUL "*" checked_mul F.mul .overflow s2 a b
  .ok { vm with stack := s3 }

/-- The source's `Vm::op_div`. -/
def Vm.op_div (vm : Vm) (F : FloatOps) (ctx : Context) : Except VmError Vm := do
  let (b, s1) ← vm.stack.pop
  let (a, s2) ← s1.pop
  let s3 ← numericOp ctx DIV "/" checked_div F.div .divideByZero s2 a b
  .ok { vm with stack := s3 }

/-! ## Comparison operations -/

/-- The body of the source's `primitive_ops!` expansion: comparison is
defined for same-variant pairs of Char, Bool, Integer and Float through
the four supplied comparison functions; any other pair raises
`UnsupportedBinaryOperation`. -/
def primitiveCmp (opName : String) (fc : Char → Char → Bool)
    (fb : Bool → Bool → Bool) (fi : Int → Int → Bool) (ff : FP → FP → Bool) :
    Value → Value → Except VmError Bool
  | .char a, .char b => .ok (fc a b)
  | .bool a, .bool b => .ok (fb a b)
  | .integer a, .integer b => .ok (fi a b)
  | .float a, .float b => .ok (ff a b)
  | a, b => .error (.unsupportedBinaryOperation opName a.typeTag b.typeTag)

/-- Rust's `bool` ordering: `false < true`. -/
def boolLt (a b : Bool) : Bool := !a && b

/-- The source's `Vm::op_gt` (`a > b` where `a` is popped second). -/
def Vm.op_gt (vm : Vm) (F : FloatOps) : Except VmError Vm := do
  let (b, s1) ← vm.stack.pop
  let (a, s2) ← s1.pop
  let r ← primitiveCmp ">" (fun x y => decide (y < x)) (fun x y => boolLt y x)
    (fun x y => decide (y < x)) (fun x y => F.lt y x) a b
  .ok { vm with stack := s2.push (.bool r) }

/-- The source's `Vm::op_gte`. -/
def Vm.op_gte (vm : Vm) (F : FloatOps) : Except VmError Vm := do
  let (b, s1) ← vm.stack.pop
  let (a, s2) ← s1.pop
  let r ← primitiveCmp ">=" (fun x y => decide (y ≤ x)) (fun x y => boolLt y x || x == y)
    (fun x y => decide (y ≤ x)) (fun x y => F.le y x) a b
  .ok { vm with stack := s2.push (.bool r) }

/-- The source's `Vm::op_lt`. -/
def Vm.op_lt (vm : Vm) (F : FloatOps) : Except VmError Vm := do
  let (b, s1) ← vm.stack.pop
  let (a, s2) ← s1.pop
  let r ← primitiveCmp "<" (fun x y => decide (x < y)) boolLt
    (fun x y => decide (x < y)) F.lt a b
  .ok { vm with stack := s2.push (.bool r) }

/-- The source's `Vm::op_lte`. -/
def Vm.op_lte (vm : Vm) (F : FloatOps) : Except VmError Vm := do
  let (b, s1) ← vm.stack.pop
  let (a, s2) ← s1.pop
  let r ← primitiveCmp "<=" (fun x y => decide (x ≤ y)) (fun x y => boolLt x y || x == y)
    (fun x y => decide (x ≤ y)) F.le a b
  .ok { vm with stack := s2.push (.bool r) }

/-! ## Jumps and the branch register -/

/-- The source's `Vm::op_jump`; the returned flag is the loop's
`update_ip` (false when a jump replaced the instruction pointer). -/
def Vm.op_jump (vm : Vm) (offset : Int) : Except VmError (Vm × Bool) := do
  let vm ← vm.modify_ip offset
  .ok (vm, false)

/-- The source's `Vm::op_jump_if`. -/
def Vm.op_jump_if (vm : Vm) (offset : Int) : Except VmError (Vm × Bool) := do
  let (v, s) ← vm.stack.pop
  let b ← v.into_bool
  let vm := { vm with stack := s }
  if b then
    let vm ← vm.modify_ip offset
    .ok (vm, false)
  else .ok (vm, true)

/-- The source's `Vm::op_jump_if_not`. -/
def Vm.op_jump_if_not (vm : Vm) (offset : Int) : Except VmError (Vm × Bool) := do
  let (v, s) ← vm.stack.pop
  let b ← v.into_bool
  let vm := { vm with stack := s }
  if b then .ok (vm, true)
  else
    let vm ← vm.modify_ip offset
    .ok (vm, false)

/-- The source's `Vm::op_jump_if_branch`: jump and clear the branch
register when it holds exactly `branch`; otherwise leave everything
unchanged. -/
def Vm.op_jump_if_branch (vm : Vm) (branch : Nat) (offset : Int) :
    Except VmError (Vm × Bool) :=
  match vm.branch with
  | some current =>
    if current = branch then do
      let vm ← Vm.modify_ip { vm with branch := none } offset
      .ok (vm, false)
    else .ok (vm, true)
  | none => .ok (vm, true)

/-! ## Call frames and returns -/

/-- The source's `Vm::push_call_frame`. -/
def Vm.push_call_frame (vm : Vm) (new_ip : Nat) (args : Nat) :
    Except VmError Vm := do
  let (stack_top, s) ← vm.stack.push_stack_top args
  .ok { vm with
    stack := s
    call_frames := { ip := vm.ip, stack_top } :: vm.call_frames
    ip := new_ip }

/-- The source's `Vm::pop_call_frame`: with no frame left, assert stack
balance and report the last frame; otherwise restore the frame's
watermark and instruction pointer. -/
def Vm.pop_call_frame (vm : Vm) : Except VmError (Bool × Vm) :=
  match vm.call_frames with
  | [] => do
    vm.stack.check_stack_top
    .ok (true, vm)
  | frame :: rest => do
    let s ← vm.stack.pop_stack_top frame.stack_top
    .ok (false, { vm with stack := s, ip := frame.ip, call_frames := rest })

/-- The source's `Vm::op_return`: pop the return value, pop the call
frame, push the return value. -/
def Vm.op_return (vm : Vm) : Except VmError Vm := do
  let (return_value, s) ← vm.stack.pop
  let (last, vm) ← Vm.pop_call_frame { vm with stack := s }
  .ok { vm with exited := last, stack := vm.stack.push return_value }

/-- The source's `Vm::op_return_unit`. -/
def Vm.op_return_unit (vm : Vm) : Except VmError Vm := do
  let (last, vm) ← vm.pop_call_frame
  .ok { vm with exited := last, stack := vm.stack.push .unit }

/-! ## Object construction -/

/-- The pop-and-insert loop of `Vm::op_object` / `Vm::op_typed_object`:
for each key, in the key tuple's order, pop one value and associate it
with the key. -/
def objectLoop : List String → Stack → List (String × Value) →
    Except VmError (List (String × Value) × Stack)
  | [], s, o => .ok (o, s)
  | k :: ks, s, o => do
    let (v, s') ← s.pop
    objectLoop ks s' (objInsert o k v)

/-- The source's `Vm::op_object`. -/
def Vm.op_object (vm : Vm) (unit : CompilationUnit) (slot : Nat) :
    Except VmError Vm := do
  match unit.lookup_object_keys slot with
  | none => .error (.missingStaticObjectKeys slot)
  | some keys =>
    let (o, s) ← objectLoop keys vm.stack []
    .ok { vm with stack := s.push (.object o) }

/-- The source's `Vm::op_typed_object`. -/
def Vm.op_typed_object (vm : Vm) (unit : CompilationUnit) (ty : Nat) (slot : Nat) :
    Except VmError Vm := do
  match unit.lookup_object_keys slot with
  | none => .error (.missingStaticObjectKeys slot)
  | some keys =>
    let (o, s) ← objectLoop keys vm.stack []
    .ok { vm with stack := s.push (.typedObject ty o) }

/-! ## Index get -/

/-- String-or-static-string index extraction used by `Vm::op_index_get`'s
object fast path. -/
def indexKey : Value → Option String
  | .string s => some s
  | .staticString s => some s
  | _ => none

/-- Fallback of `Vm::op_index_get`: look up the `INDEX_GET` instance
handler for the target's type, a miss raising `UnsupportedIndexGet`; a
hit re-pushes index then target and invokes the handler with one
argument.  The `INDEX_GET` method hash is modelled as an opaque number. -/
def INDEX_GET : Nat := 4

/-- The source's `Vm::op_index_get`: an Object target keyed by a String
or StaticString pushes `Option` of the looked-up value (never failing on
an absent key); every other combination falls through to the instance
handler. -/
def Vm.op_index_get (vm : Vm) (ctx : Context) : Except VmError Vm := do
  let (target, s1) ← vm.stack.pop
  let (index, s2) ← s1.pop
  match target, indexKey index with
  | .object entries, some k =>
    .ok { vm with stack := s2.push (.option (objGet entries k)) }
  | _, _ =>
    match ctx.lookup (hashInstanceFunction target.typeTag INDEX_GET) with
    | none => .error (.unsupportedIndexGet target.typeTag index.typeTag)
    | some h => do
      let s3 ← h ((s2.push index).push target) 1
      .ok { vm with stack := s3 }

/-! ## Select -/

/-- A pending future collected by `Vm::op_select`: its index in pop
order, its completion rank and the value it will produce. -/
structure SelectEntry where
  index : Nat
  rank : Nat
  value : Value

/-- The pop loop of `Vm::op_select`: pop `n` futures, skipping the ones
already completed and collecting the rest with their pop-order index. -/
def selectPop : Nat → Nat → Stack → List SelectEntry →
    Except VmError (Stack × List SelectEntry)
  | _, 0, s, acc => .ok (s, acc)
  | index, n + 1, s, acc => do
    let (v, s') ← s.pop
    let (completed, rank, val) ← v.into_future
    if completed then selectPop (index + 1) n s' acc
    else selectPop (index + 1) n s' (acc ++ [⟨index, rank, val⟩])

/-- Modelled from the spec: the first of the pending futures to complete
(`FuturesUnordered` driving `SelectFuture`s;
crates/runestick/src/future.rs is not among the provided sources).  Each
pending future is abstracted by its completion rank; the first completion
is the entry with the least rank. -/
def selectWinner : List SelectEntry → Option SelectEntry
  | [] => none
  | x :: xs => some (xs.foldl (fun best y => if y.rank < best.rank then y else best) x)

/-- The source's `Vm::op_select`: pop `len` futures, discard the
already-completed ones; with nothing left to poll this is a no-op,
otherwise the first completion's value is pushed and the branch register
set to its pop-order index. -/
def Vm.op_select (vm : Vm) (len : Nat) : Except VmError Vm := do
  let (s, futures) ← selectPop 0 len vm.stack []
  match selectWinner futures with
  | none => .ok { vm with stack := s }
  | some w => .ok { vm with stack := s.push w.value, branch := some w.index }

/-! ## The dispatch loop -/

/-- One instruction's effect (the body of the source's `Vm::run_for`
dispatch); the returned flag is `update_ip`. -/
def Vm.execInst (vm : Vm) (F : FloatOps) (unit : CompilationUnit) (ctx : Context) :
    Inst → Except VmError (Vm × Bool)
  | .add => (vm.op_add F ctx).map (·, true)
  | .sub => (vm.op_sub F ctx).map (·, true)
  | .mul => (vm.op_mul F ctx).map (·, true)
  | .div => (vm.op_div F ctx).map (·, true)
  | .gt => (vm.op_gt F).map (·, true)
  | .gte => (vm.op_gte F).map (·, true)
  | .lt => (vm.op_lt F).map (·, true)
  | .lte => (vm.op_lte F).map (·, true)
  | .pop => (vm.stack.pop).map (fun p => ({ vm with stack := p.2 }, true))
  | .integer n => .ok ({ vm with stack := vm.stack.push (.integer n) }, true)
  | .float f => .ok ({ vm with stack := vm.stack.push (.float f) }, true)
  | .bool b => .ok ({ vm with stack := vm.stack.push (.bool b) }, true)
  | .unit => .ok ({ vm with stack := vm.stack.push .unit }, true)
  | .jump offset => vm.op_jump offset
  | .jumpIf offset => vm.op_jump_if offset
  | .jumpIfNot offset => vm.op_jump_if_not offset
  | .jumpIfBranch branch offset => vm.op_jump_if_branch branch offset
  | .indexGet => (vm.op_index_get ctx).map (·, true)
  | .object slot => (vm.op_object unit slot).map (·, true)
  | .typedObject ty slot => (vm.op_typed_object unit ty slot).map (·, true)
  | .select len => (vm.op_select len).map (·, true)
  | .ret => (vm.op_return).map (·, true)
  | .retUnit => (vm.op_return_unit).map (·, true)

/-- One iteration of the source's `Vm::run_for` loop: fetch the
instruction at `ip` (absence is `IpOutOfBounds`), execute it, then
advance `ip` unless the instruction replaced it. -/
def Vm.step (vm : Vm) (F : FloatOps) (unit : CompilationUnit) (ctx : Context) :
    Except VmError Vm :=
  match unit.instruction_at vm.ip with
  | none => .error .ipOutOfBounds
  | some inst => do
    let (vm, update_ip) ← vm.execInst F unit ctx inst
    .ok (if update_ip then { vm with ip := vm.ip + 1 } else vm)

/-- The source's `Vm::run_for` with no limit, bounded by fuel: iterate
`step` while `exited` is false.  `none` means the fuel ran out with the
machine still running; `some` is the machine's own outcome. -/
def Vm.runFor (F : FloatOps) (unit : CompilationUnit) (ctx : Context) :
    Nat → Vm → Option (Except VmError Vm)
  | 0, vm => if vm.exited then some (.ok vm) else none
  | fuel + 1, vm =>
    if vm.exited then some (.ok vm)
    else
      match vm.step F unit ctx with
      | .error e => some (.error e)
      | .ok vm' => Vm.runFor F unit ctx fuel vm'

/-- The source's `Task::run_to_completion` (with `Value` as the output
type, whose conversion is the identity): run until `exited`, then pop the
single remaining stack value. -/
def Vm.runToCompletion (F : FloatOps) (unit : CompilationUnit) (ctx : Context)
    (fuel : Nat) (vm : Vm) : Option (Except VmError Value) :=
  (vm.runFor F unit ctx fuel).map fun r =>
    r.bind fun vm' => (vm'.stack.pop).map Prod.fst

/-! ## Streams (crates/runestick/src/stream.rs) -/

/-- The state returned by resuming a generator or stream execution. -/
inductive GeneratorState where
  | yielded (v : Value)
  | complete (v : Value)

/-- The source's `GeneratorState::is_complete`. -/
def GeneratorState.is_complete : GeneratorState → Bool
  | .yielded _ => false
  | .complete _ => true

/-- Modelled from the spec: a `VmExecution` — a wrapped virtual machine
driven by `async_resume`, each call running the instruction loop until a
yield or completion (the VmExecution module is not among the provided
sources).  The wrapped machine is abstracted into the stack values fed to
it and a plan giving, for each resume number and fed stack, the outcome
the instruction loop produces. -/
structure VmExecution where
  stack : List Value
  resumes : Nat
  plan : Nat → List Value → Except VmError GeneratorState

/-- Modelled from the spec: feeding a value onto the wrapped machine's
stack (`execution.vm_mut()?.stack_mut().push(value)`). -/
def VmExecution.feed (e : VmExecution) (v : Value) : VmExecution :=
  { e with stack := e.stack ++ [v] }

/-- Modelled from the spec: one `async_resume` — the plan's outcome for
the current resume number and stack contents. -/
def VmExecution.async_resume (e : VmExecution) :
    Except VmError GeneratorState × VmExecution :=
  (e.plan e.resumes e.stack, { e with resumes := e.resumes + 1 })

/-- The source's `Stream`: an optional execution (dropped on completion)
plus the first-resume flag. -/
structure Stream where
  execution : Option VmExecution
  first : Bool

/-- The source's `Stream::new`. -/
def Stream.mk_new (e : VmExecution) : Stream :=
  { execution := some e, first := true }

/-- The source's `Stream::resume`: with no execution left fail with
`GeneratorComplete`; otherwise clear the first-resume flag, feed `value`
unless this is the first resume, resume the execution, and drop it when
it completed. -/
def Stream.resume (s : Stream) (value : Value) :
    Except VmError GeneratorState × Stream :=
  match s.execution with
  | none => (.error .generatorComplete, s)
  | some execution =>
    let wasFirst := s.first
    let execution := if wasFirst then execution else execution.feed value
    match execution.async_resume with
    | (.error e, execution') => (.error e, { execution := some execution', first := false })
    | (.ok state, execution') =>
      if state.is_complete then (.ok state, { execution := none, first := false })
      else (.ok state, { execution := some execution', first := false })

/-- The source's `Stream::next`: resume with `Unit`, mapping a yield to
`some` and completion to `none`. -/
def Stream.next (s : Stream) : Except VmError (Option Value) × Stream :=
  match s.resume .unit with
  | (.error e, s') => (.error e, s')
  | (.ok (.yielded v), s') => (.ok (some v), s')
  | (.ok (.complete _), s') => (.ok none, s')

/-! ## The indexer scope stack (crates/rune/src/index_scopes.rs) -/

/-- A compile error raised by the indexer scope stack. -/
inductive CompileError where
  | internal (msg : String)
  | yieldOutsideFunction (span : Nat)
deriving DecidableEq, Repr

/-- The source's `IndexScope`: the locals declared at one level (a map
from name to declaration span, represented insertion-ordered). -/
structure IndexScope where
  locals : List (String × Nat)
deriving DecidableEq, Repr

/-- The source's `HashMap::insert` on the locals map. -/
def IndexScope.insertLocal (s : IndexScope) (var : String) (span : Nat) :
    IndexScope :=
  ⟨(var, span) :: s.locals.filter (fun p => p.1 ≠ var)⟩

/-- Whether a name is bound in the scope. -/
def IndexScope.hasLocal (s : IndexScope) (var : String) : Bool :=
  s.locals.any (fun p => p.1 == var)

/-- The source's `IndexClosure`: capture list, already-captured set,
inner scope and generator flag. -/
structure IndexClosure where
  captures : List String
  existing : List String
  scope : IndexScope
  generator : Bool
deriving DecidableEq, Repr

/-- The source's `IndexClosure::new`. -/
def IndexClosure.mk_new : IndexClosure :=
  ⟨[], [], ⟨[]⟩, false⟩

/-- The source's `IndexFunction`. -/
structure IndexFunction where
  scope : IndexScope
  generator : Bool
deriving DecidableEq, Repr

/-- The source's `IndexFunction::new`. -/
def IndexFunction.mk_new : IndexFunction :=
  ⟨⟨[]⟩, false⟩

/-- The source's `IndexScopeLevel`. -/
inductive IndexScopeLevel where
  | indexScope (s : IndexScope)
  | indexClosure (c : IndexClosure)
  | indexFunction (f : IndexFunction)
deriving DecidableEq, Repr

/-- The source's `IndexScopes`, with the innermost level at the head of
the list. -/
def IndexScopes := List IndexScopeLevel

/-- The source's `IndexScopes::new`: a single empty scope level. -/
def IndexScopes.new : IndexScopes := [.indexScope ⟨[]⟩]

/-- The source's `IndexScopes::declare`: bind the name in the innermost
level's scope. -/
def IndexScopes.declare (levels : IndexScopes) (var : String) (span : Nat) :
    Except CompileError IndexScopes :=
  match levels with
  | [] => .error (.internal "empty scopes")
  | .indexScope s :: rest => .ok (.indexScope (s.insertLocal var span) :: rest)
  | .indexClosure c :: rest =>
    .ok (.indexClosure { c with scope := c.scope.insertLocal var span } :: rest)
  | .indexFunction f :: rest =>
    .ok (.indexFunction { f with scope := f.scope.insertLocal var span } :: rest)

/-- Record a capture of `var` in a closure: append to the capture list
and add to the already-captured set. -/
def IndexClosure.capture (c : IndexClosure) (var : String) : IndexClosure :=
  { c with captures := c.captures ++ [var], existing := var :: c.existing }

/-- The outward walk of the source's `IndexScopes::mark_use`: `some`
updated levels when the name was found (each closure traversed before the
find has the capture recorded), `none` when the walk ended without
finding it (no level is changed in that case). -/
def markUseGo (var : String) : List IndexScopeLevel → Option (List IndexScopeLevel)
  | [] => none
  | .indexScope s :: rest =>
    if s.hasLocal var then some (.indexScope s :: rest)
    else (markUseGo var rest).map (.indexScope s :: ·)
  | .indexClosure c :: rest =>
    if var ∈ c.existing then some (.indexClosure c :: rest)
    else if c.scope.hasLocal var then some (.indexClosure c :: rest)
    else (markUseGo var rest).map (.indexClosure (c.capture var) :: ·)
  | .indexFunction f :: rest =>
    if f.scope.hasLocal var then some (.indexFunction f :: rest) else none

/-- The source's `IndexScopes::mark_use`: walk outward, stopping at the
first function level; when the name is found, every closure level
traversed on the way records a capture (idempotent via the
already-captured set); otherwise nothing changes. -/
def IndexScopes.mark_use (levels : IndexScopes) (var : String) : IndexScopes :=
  (markUseGo var levels).getD levels

/-- The source's `IndexScopes::mark_yield`: set the generator flag on
the nearest function or closure level; with neither present fail with
`YieldOutsideFunction`. -/
def IndexScopes.mark_yield (levels : IndexScopes) (span : Nat) :
    Except CompileError IndexScopes :=
  match levels with
  | [] => .error (.yieldOutsideFunction span)
  | .indexScope s :: rest =>
    (IndexScopes.mark_yield rest span).map (.indexScope s :: ·)
  | .indexClosure c :: rest =>
    .ok (.indexClosure { c with generator := true } :: rest)
  | .indexFunction f :: rest =>
    .ok (.indexFunction { f with generator := true } :: rest)

/-- The source's `IndexScopes::push_function`. -/
def IndexScopes.push_function (levels : IndexScopes) : IndexScopes :=
  .indexFunction IndexFunction.mk_new :: levels

/-- The source's `IndexScopes::push_closure`. -/
def IndexScopes.push_closure (levels : IndexScopes) : IndexScopes :=
  .indexClosure IndexClosure.mk_new :: levels

/-- The source's `IndexScopes::push_scope`. -/
def IndexScopes.push_scope (levels : IndexScopes) : IndexScopes :=
  .indexScope ⟨[]⟩ :: levels

/-- The closure summary returned by `into_closure`. -/
structure Closure where
  captures : List String
  generator : Bool
deriving DecidableEq, Repr

/-- The function summary returned by `into_function`. -/
structure Function where
  generator : Bool
deriving DecidableEq, Repr

/-- The source's `IndexScopeGuard::into_closure`: pop the innermost
level, which must be a closure, and return its captures and generator
flag. -/
def IndexScopes.into_closure (levels : IndexScopes) :
    Except CompileError (Closure × IndexScopes) :=
  match levels with
  | [] => .error (.internal "missing scope")
  | .indexClosure c :: rest => .ok (⟨c.captures, c.generator⟩, rest)
  | _ :: _ => .error (.internal "expected closure")

/-- The source's `IndexScopeGuard::into_function`. -/
def IndexScopes.into_function (levels : IndexScopes) :
    Except CompileError (Function × IndexScopes) :=
  match levels with
  | [] => .error (.internal "missing scope")
  | .indexFunction f :: rest => .ok (⟨f.generator⟩, rest)
  | _ :: _ => .error (.internal "expected function")

/-! ## Concrete fixtures used by witnesses -/

/-- A concrete `FloatOps` whose results are all non-finite; only used to
instantiate float-polymorphic statements at a concrete input. -/
def stubFloatOps : FloatOps :=
  { add := fun _ _ => ⟨false, 0⟩
    sub := fun _ _ => ⟨false, 0⟩
    mul := fun _ _ => ⟨false, 0⟩
    div := fun _ _ => ⟨false, 0⟩
    lt := fun _ _ => false
    le := fun _ _ => false }

/-- A context with no native handlers. -/
def emptyContext : Context := ⟨fun _ => none⟩

/-! ## Basic stack lemmas -/

/-- Popping a stack whose top is visible succeeds, provided the watermark
lies at or below the remaining values. -/
theorem stack_pop_eq (s : Stack) (v : Value) (vs : List Value)
    (hv : s.values = v :: vs) (h : s.stack_top ≤ vs.length) :
    s.pop = .ok (v, { s with values := vs }) := by
  obtain ⟨values, st⟩ := s
  simp only at hv h
  subst hv
  simp only [Stack.pop]
  rw [if_neg (by simp; omega)]

/-! ## Claim C2: checked arithmetic and its failure modes -/

/-- C2: for every pair of values popped by Add, Sub, Mul or Div: if both
are Integer, the result is computed with checked 64-bit arithmetic and a
checked failure raises Overflow (Add, Mul), Underflow (Sub) or
DivideByZero (Div) instead of pushing a value; if both are Float, a
non-finite result raises the same error for that opcode; in particular
the program `[Integer{i64::MAX}, Integer{1}, Add, Return]` fails with
Overflow. -/
theorem claim_C2 :
    (∀ (vm : Vm) (F : FloatOps) (ctx : Context) (a b : Int) (rest : List Value),
      vm.stack.values = .integer b :: .integer a :: rest →
      vm.stack.stack_top ≤ rest.length →
      (∀ c, checked_add a b = some c →
        vm.op_add F ctx = .ok { vm with stack := { vm.stack with values := .integer c :: rest } }) ∧
      (checked_add a b = none → vm.op_add F ctx = .error .overflow) ∧
      (∀ c, checked_sub a b = some c →
        vm.op_sub F ctx = .ok { vm with stack := { vm.stack with values := .integer c :: rest } }) ∧
      (checked_sub a b = none → vm.op_sub F ctx = .error .underflow) ∧
      (∀ c, checked_mul a b = some c →
        vm.op_mul F ctx = .ok { vm with stack := { vm.stack with values := .integer c :: rest } }) ∧
      (checked_mul a b = none → vm.op_mul F ctx = .error .overflow) ∧
      (∀ c, checked_div a b = some c →
        vm.op_div F ctx = .ok { vm with stack := { vm.stack with values := .integer c :: rest } }) ∧
      (checked_div a b = none → vm.op_div F ctx = .error .divideByZero)) ∧
    (∀ (vm : Vm) (F : FloatOps) (ctx : Context) (fa fb : FP) (rest : List Value),
      vm.stack.values = .float fb :: .float fa :: rest →
      vm.stack.stack_top ≤ rest.length →
      ((F.add fa fb).isFinite = false → vm.op_add F ctx = .error .overflow) ∧
      ((F.sub fa fb).isFinite = false → vm.op_sub F ctx = .error .underflow) ∧
      ((F.mul fa fb).isFinite = false → vm.op_mul F ctx = .error .overflow) ∧
      ((F.div fa fb).isFinite = false → vm.op_div F ctx = .error .divideByZero)) ∧
    (∀ (F : FloatOps) (ctx : Context),
      Vm.runToCompletion F ⟨[.integer I64_MAX, .integer 1, .add, .ret], [], []⟩ ctx 10 Vm.new
        = some (.error .overflow)) := by
  refine ⟨?_, ?_, ?_⟩
  · intro vm F ctx a b rest hv ht
    have h1 := stack_pop_eq vm.stack (.integer b) (.integer a :: rest) hv
      (by simp only [List.length_cons]; omega)
    have h2 : Stack.pop ⟨.integer a :: rest, vm.stack.stack_top⟩
        = .ok (.integer a, ⟨rest, vm.stack.stack_top⟩) :=
      stack_pop_eq _ _ _ rfl ht
    refine ⟨?_, ?_, ?_, ?_, ?_, ?_, ?_, ?_⟩
    · intro c hc
      simp [Vm.op_add, h1, h2, numericOp, hc, Stack.push, bind, Except.bind]
    · intro hc
      simp [Vm.op_add, h1, h2, numericOp, hc, bind, Except.bind]
    · intro c hc
      simp [Vm.op_sub, h1, h2, numericOp, hc, Stack.push, bind, Except.bind]
    · intro hc
      simp [Vm.op_sub, h1, h2, numericOp, hc, bind, Except.bind]
    · intro c hc
      simp [Vm.op_mul, h1, h2, numericOp, hc, Stack.push, bind, Except.bind]
    · intro hc
      simp [Vm.op_mul, h1, h2, numericOp, hc, bind, Except.bind]
    · intro c hc
      simp [Vm.op_div, h1, h2, numericOp, hc, Stack.push, bind, Except.bind]
    · intro hc
      simp [Vm.op_div, h1, h2, numericOp, hc, bind, Except.bind]
  · intro vm F ctx fa fb rest hv ht
    have h1 := stack_pop_eq vm.stack (.float fb) (.float fa :: rest) hv
      (by simp only [List.length_cons]; omega)
    have h2 : Stack.pop ⟨.float fa :: rest, vm.stack.stack_top⟩
        = .ok (.float fa, ⟨rest, vm.stack.stack_top⟩) :=
      stack_pop_eq _ _ _ rfl ht
    refine ⟨?_, ?_, ?_, ?_⟩
    · intro hfin
      simp [Vm.op_add, h1, h2, numericOp, hfin, bind, Except.bind]
    · intro hfin
      simp [Vm.op_sub, h1, h2, numericOp, hfin, bind, Except.bind]
    · intro hfin
      simp [Vm.op_mul, h1, h2, numericOp, hfin, bind, Except.bind]
    · intro hfin
      simp [Vm.op_div, h1, h2, numericOp, hfin, bind, Except.bind]
  · intro F ctx
    rfl

/-- Witness for C2: the overflow case of Add at `i64::MAX + 1`. -/
theorem claim_C2_witness :
    checked_add I64_MAX 1 = none ∧
    Vm.op_add ⟨0, ⟨[.integer 1, .integer I64_MAX], 0⟩, false, [], none⟩
      stubFloatOps emptyContext = .error .overflow :=
  ⟨by decide,
    (claim_C2.1 ⟨0, ⟨[.integer 1, .integer I64_MAX], 0⟩, false, [], none⟩
      stubFloatOps emptyContext I64_MAX 1 [] rfl (by decide)).2.1 (by decide)⟩

/-! ## Claim C3: object construction order -/

/-- Inserting a fresh key appends it, preserving insertion order. -/
theorem objInsert_of_fresh (o : List (String × Value)) (k : String) (v : Value)
    (h : ∀ p ∈ o, p.1 ≠ k) : objInsert o k v = o ++ [(k, v)] := by
  induction o with
  | nil => rfl
  | cons p rest ih =>
    obtain ⟨k', v'⟩ := p
    have hk : k' ≠ k := h (k', v') (List.mem_cons_self _ _)
    simp only [objInsert, if_neg hk, List.cons_append, List.cons.injEq, true_and]
    exact ih fun q hq => h q (List.mem_cons_of_mem _ hq)

/-- The pop-and-insert loop of object construction: with fresh, pairwise
distinct keys it pops one value per key and appends the pairs in key
order. -/
theorem objectLoop_eq (ks : List String) :
    ∀ (vs rest : List Value) (st : Nat) (o : List (String × Value)),
    vs.length = ks.length → st ≤ rest.length →
    ks.Nodup → (∀ k ∈ ks, ∀ p ∈ o, p.1 ≠ k) →
    objectLoop ks ⟨vs ++ rest, st⟩ o = .ok (o ++ ks.zip vs, ⟨rest, st⟩) := by
  induction ks with
  | nil =>
    intro vs rest st o hlen _ _ _
    have hnilv : vs = [] := List.length_eq_zero.mp (by simpa using hlen)
    subst hnilv
    simp [objectLoop]
  | cons k ks ih =>
    intro vs rest st o hlen hst hnd hfresh
    match vs with
    | [] => simp at hlen
    | v :: vs =>
      have hpop : Stack.pop ⟨(v :: vs) ++ rest, st⟩ = .ok (v, ⟨vs ++ rest, st⟩) :=
        stack_pop_eq _ _ _ rfl (by simp; omega)
      have hins : objInsert o k v = o ++ [(k, v)] :=
        objInsert_of_fresh o k v (hfresh k (List.mem_cons_self _ _))
      have hrec := ih vs rest st (o ++ [(k, v)]) (by simpa using hlen) hst
        (List.Nodup.of_cons hnd)
        (by
          intro k' hk' p hp
          rcases List.mem_append.mp hp with hp | hp
          · exact hfresh k' (List.mem_cons_of_mem _ hk') p hp
          · simp only [List.mem_singleton] at hp
            subst hp
            intro hcontra
            apply (List.nodup_cons.mp hnd).1
            rw [show k = k' from hcontra]
            exact hk')
      simp only [objectLoop, hpop, hins, bind, Except.bind, hrec, List.zip_cons_cons,
        List.append_assoc, List.singleton_append]

/-- C3: for every Object (and TypedObject) instruction whose key tuple is
`k0..kn-1`, the VM pops exactly `n` values, associating the i-th popped
value with key `ki`, and the resulting object's iteration order is the
key tuple's order; in particular with keys `["a","b"]` the bytecode
`[Integer{2}, Integer{1}, Object{slot:0}, Return]` returns an Object with
`a = 1` and `b = 2`. -/
theorem claim_C3 :
    (∀ (vm : Vm) (u : CompilationUnit) (slot : Nat) (ks : List String)
        (vs rest : List Value),
      u.lookup_object_keys slot = some ks → ks.Nodup →
      vs.length = ks.length →
      vm.stack.values = vs ++ rest →
      vm.stack.stack_top ≤ rest.length →
      vm.op_object u slot
        = .ok { vm with stack := { vm.stack with values := .object (ks.zip vs) :: rest } }) ∧
    (∀ (vm : Vm) (u : CompilationUnit) (ty : Nat) (slot : Nat) (ks : List String)
        (vs rest : List Value),
      u.lookup_object_keys slot = some ks → ks.Nodup →
      vs.length = ks.length →
      vm.stack.values = vs ++ rest →
      vm.stack.stack_top ≤ rest.length →
      vm.op_typed_object u ty slot
        = .ok { vm with stack := { vm.stack with values := .typedObject ty (ks.zip vs) :: rest } }) ∧
    (∀ (F : FloatOps) (ctx : Context),
      Vm.runToCompletion F ⟨[.integer 2, .integer 1, .object 0, .ret], [], [["a", "b"]]⟩
          ctx 10 Vm.new
        = some (.ok (.object [("a", .integer 1), ("b", .integer 2)]))) := by
  refine ⟨?_, ?_, ?_⟩
  · intro vm u slot ks vs rest hks hnd hlen hv ht
    obtain ⟨ip, ⟨values, st⟩, ex, cf, br⟩ := vm
    simp only at hv ht
    subst hv
    have hloop := objectLoop_eq ks vs rest st [] hlen ht hnd (by simp)
    simp only [Vm.op_object, hks, hloop, bind, Except.bind, List.nil_append, Stack.push]
  · intro vm u ty slot ks vs rest hks hnd hlen hv ht
    obtain ⟨ip, ⟨values, st⟩, ex, cf, br⟩ := vm
    simp only at hv ht
    subst hv
    have hloop := objectLoop_eq ks vs rest st [] hlen ht hnd (by simp)
    simp only [Vm.op_typed_object, hks, hloop, bind, Except.bind, List.nil_append, Stack.push]
  · intro F ctx
    rfl

/-- Witness for C3: constructing `{"a": 1, "b": 2}` from keys
`["a","b"]` and stack top `1` over `2`. -/
theorem claim_C3_witness :
    Vm.op_object ⟨2, ⟨[.integer 1, .integer 2], 0⟩, false, [], none⟩
      ⟨[], [], [["a", "b"]]⟩ 0
      = .ok ⟨2, ⟨[.object [("a", .integer 1), ("b", .integer 2)]], 0⟩, false, [], none⟩ :=
  claim_C3.1 ⟨2, ⟨[.integer 1, .integer 2], 0⟩, false, [], none⟩
    ⟨[], [], [["a", "b"]]⟩ 0 ["a", "b"] [.integer 1, .integer 2] [] rfl
    (by decide) rfl rfl (by decide)

/-! ## Claim C4: Return, frame popping and the exited flag -/

/-- C4: a successful Return pops the top value, pops the innermost call
frame — restoring the stack to exactly that frame's recorded `stack_top`
(discarding stray values above it) and the instruction pointer to the
frame's return ip — then pushes the return value, leaving stack length
`stack_top + 1`; with no call frame left, Return sets `exited` and
stepping afterwards executes no further instruction. -/
theorem claim_C4 :
    (∀ (vm : Vm) (v : Value) (rest : List Value) (frame : CallFrame)
        (frames : List CallFrame),
      vm.stack.values = v :: rest →
      vm.stack.stack_top ≤ rest.length →
      vm.call_frames = frame :: frames →
      frame.stack_top ≤ rest.length →
      vm.op_return
        = .ok { ip := frame.ip,
                stack := ⟨v :: rest.drop (rest.length - frame.stack_top), frame.stack_top⟩,
                exited := false,
                call_frames := frames,
                branch := vm.branch }
      ∧ (v :: rest.drop (rest.length - frame.stack_top)).length = frame.stack_top + 1) ∧
    (∀ (vm : Vm) (v : Value) (rest : List Value),
      vm.stack.values = v :: rest →
      vm.stack.stack_top = rest.length →
      vm.call_frames = [] →
      vm.op_return = .ok { vm with exited := true }) ∧
    (∀ (vm : Vm) (F : FloatOps) (u : CompilationUnit) (ctx : Context) (fuel : Nat),
      vm.exited = true → vm.runFor F u ctx fuel = some (.ok vm)) := by
  refine ⟨?_, ?_, ?_⟩
  · intro vm v rest frame frames hv hst hcf hframe
    obtain ⟨ip, ⟨values, st⟩, ex, cf, br⟩ := vm
    simp only at hv hst hcf
    subst hv hcf
    have hpop : Stack.pop ⟨v :: rest, st⟩ = .ok (v, ⟨rest, st⟩) :=
      stack_pop_eq _ _ _ rfl hst
    have hpst : Stack.pop_stack_top ⟨rest, st⟩ frame.stack_top
        = .ok ⟨rest.drop (rest.length - frame.stack_top), frame.stack_top⟩ := by
      simp only [Stack.pop_stack_top]
      rw [if_pos hframe]
    constructor
    · simp only [Vm.op_return, Vm.pop_call_frame, hpop, hpst, bind, Except.bind, Stack.push]
    · simp only [List.length_cons, List.length_drop]
      omega
  · intro vm v rest hv hst hcf
    obtain ⟨ip, ⟨values, st⟩, ex, cf, br⟩ := vm
    simp only at hv hst hcf
    subst hv hcf hst
    have hpop : Stack.pop ⟨v :: rest, rest.length⟩ = .ok (v, ⟨rest, rest.length⟩) :=
      stack_pop_eq _ _ _ rfl (Nat.le_refl _)
    simp [Vm.op_return, Vm.pop_call_frame, hpop, bind, Except.bind,
      Stack.check_stack_top, Stack.push]
  · intro vm F u ctx fuel hex
    cases fuel <;> simp [Vm.runFor, hex]

/-- Witness for C4: a Return with one frame on the call stack and one
stray value above the frame's watermark. -/
theorem claim_C4_witness :
    Vm.op_return ⟨7, ⟨[.integer 9, .unit, .bool true], 0⟩, false, [⟨3, 1⟩], none⟩
      = .ok ⟨3, ⟨[.integer 9, .bool true], 1⟩, false, [], none⟩ :=
  (claim_C4.1 ⟨7, ⟨[.integer 9, .unit, .bool true], 0⟩, false, [⟨3, 1⟩], none⟩
    (.integer 9) [.unit, .bool true] ⟨3, 1⟩ [] rfl (by decide) rfl (by decide)).1

/-! ## Claim C7: the branch register and JumpIfBranch -/

/-- C7: `JumpIfBranch{branch, offset}` jumps by `offset` and clears the
branch register exactly when the register holds `Some(branch)`; with the
register `None` or holding another index the instruction neither jumps
nor modifies the register, so a register set by `Select` survives until a
matching `JumpIfBranch` consumes it. -/
theorem claim_C7 :
    (∀ (vm : Vm) (b : Nat) (offset : Int),
      vm.branch = some b →
      (0 ≤ offset ∨ offset.natAbs ≤ vm.ip) →
      vm.op_jump_if_branch b offset
        = .ok ({ vm with
                 branch := none,
                 ip := if offset < 0 then vm.ip - offset.natAbs else vm.ip + offset.toNat },
               false)) ∧
    (∀ (vm : Vm) (b : Nat) (offset : Int),
      vm.branch = none →
      vm.op_jump_if_branch b offset = .ok (vm, true)) ∧
    (∀ (vm : Vm) (b b' : Nat) (offset : Int),
      vm.branch = some b' → b' ≠ b →
      vm.op_jump_if_branch b offset = .ok (vm, true)) := by
  refine ⟨?_, ?_, ?_⟩
  · intro vm b offset hbr hok
    by_cases hneg : offset < 0
    · have hna : offset.natAbs ≤ vm.ip := by
        rcases hok with h | h
        · omega
        · exact h
      simp [Vm.op_jump_if_branch, hbr, Vm.modify_ip, hneg, hna, bind, Except.bind]
    · simp [Vm.op_jump_if_branch, hbr, Vm.modify_ip, hneg, bind, Except.bind]
  · intro vm b offset hbr
    simp [Vm.op_jump_if_branch, hbr]
  · intro vm b b' offset hbr hne
    simp [Vm.op_jump_if_branch, hbr, hne]

/-- Witness for C7: a matching branch register jumps backwards by 3 and
clears the register. -/
theorem claim_C7_witness :
    Vm.op_jump_if_branch ⟨10, ⟨[], 0⟩, false, [], some 1⟩ 1 (-3)
      = .ok (⟨7, ⟨[], 0⟩, false, [], none⟩, false) := by
  have h := claim_C7.1 ⟨10, ⟨[], 0⟩, false, [], some 1⟩ 1 (-3) rfl (by decide)
  simpa using h

/-! ## Claim C10: IndexGet on objects wraps the result in Option -/

/-- C10: for every IndexGet whose popped target is an Object and whose
popped index is a String or StaticString, the operation never fails on an
absent key: it pushes `Option(Some v)` when the key maps to `v` and
`Option(None)` when the key is absent, rather than pushing the raw value
or raising an error. -/
theorem claim_C10 :
    ∀ (vm : Vm) (ctx : Context) (entries : List (String × Value)) (idx : Value)
      (k : String) (rest : List Value),
      vm.stack.values = .object entries :: idx :: rest →
      vm.stack.stack_top ≤ rest.length →
      (idx = .string k ∨ idx = .staticString k) →
      (∀ v, objGet entries k = some v →
        vm.op_index_get ctx
          = .ok { vm with stack := { vm.stack with values := .option (some v) :: rest } }) ∧
      (objGet entries k = none →
        vm.op_index_get ctx
          = .ok { vm with stack := { vm.stack with values := .option none :: rest } }) := by
  intro vm ctx entries idx k rest hv ht hidx
  obtain ⟨ip, ⟨values, st⟩, ex, cf, br⟩ := vm
  simp only at hv ht
  subst hv
  have h1 : Stack.pop ⟨Value.object entries :: idx :: rest, st⟩
      = .ok (.object entries, ⟨idx :: rest, st⟩) :=
    stack_pop_eq _ _ _ rfl (by simp; omega)
  have h2 : Stack.pop ⟨idx :: rest, st⟩ = .ok (idx, ⟨rest, st⟩) :=
    stack_pop_eq _ _ _ rfl ht
  have hkey : indexKey idx = some k := by
    rcases hidx with h | h <;> subst h <;> rfl
  constructor
  · intro v hget
    rcases hidx with h | h <;> subst h <;>
      simp [Vm.op_index_get, h1, h2, bind, Except.bind, indexKey, hget, Stack.push]
  · intro hget
    rcases hidx with h | h <;> subst h <;>
      simp [Vm.op_index_get, h1, h2, bind, Except.bind, indexKey, hget, Stack.push]

/-- Witness for C10: looking up the absent key `"b"` in `{"a": 1}`
pushes `Option(None)`. -/
theorem claim_C10_witness :
    Vm.op_index_get
      ⟨0, ⟨[.object [("a", .integer 1)], .string "b"], 0⟩, false, [], none⟩ emptyContext
      = .ok ⟨0, ⟨[.option none], 0⟩, false, [], none⟩ :=
  (claim_C10 ⟨0, ⟨[.object [("a", .integer 1)], .string "b"], 0⟩, false, [], none⟩
    emptyContext [("a", .integer 1)] (.string "b") "b" [] rfl (by decide)
    (Or.inl rfl)).2 rfl

/-! ## Claim C8: ordering comparisons -/

/-- Spec-side definition (section 4.1): ordering is defined only for
same-variant pairs of Char, Bool, Integer, Float, where it is the native
comparison (abstracted into the four supplied functions); every other
combination is undefined (`none`). -/
def specOrd (fc : Char → Char → Bool) (fb : Bool → Bool → Bool)
    (fi : Int → Int → Bool) (ff : FP → FP → Bool) : Value → Value → Option Bool
  | .char a, .char b => some (fc a b)
  | .bool a, .bool b => some (fb a b)
  | .integer a, .integer b => some (fi a b)
  | .float a, .float b => some (ff a b)
  | _, _ => none

/-- The code's comparison dispatch agrees with the spec-side one: defined
pairs produce the comparison value, undefined pairs produce
`UnsupportedBinaryOperation`. -/
theorem primitiveCmp_eq_specOrd (op : String) (fc : Char → Char → Bool)
    (fb : Bool → Bool → Bool) (fi : Int → Int → Bool) (ff : FP → FP → Bool)
    (a b : Value) :
    primitiveCmp op fc fb fi ff a b =
      match specOrd fc fb fi ff a b with
      | some r => .ok r
      | none => .error (.unsupportedBinaryOperation op a.typeTag b.typeTag) := by
  cases a <;> cases b <;> rfl

/-- C8: for every pair popped by Gt, Gte, Lt or Lte: same-variant pairs
of Char, Bool, Integer or Float push a Bool with the native comparison
result; every other combination of variants (including mixed
Integer/Float) fails with `UnsupportedBinaryOperation` and pushes
nothing. -/
theorem claim_C8 :
    ∀ (vm : Vm) (F : FloatOps) (a b : Value) (rest : List Value),
      vm.stack.values = b :: a :: rest →
      vm.stack.stack_top ≤ rest.length →
      (∀ r, specOrd (fun x y => decide (y < x)) (fun x y => boolLt y x)
          (fun x y => decide (y < x)) (fun x y => F.lt y x) a b = some r →
        vm.op_gt F = .ok { vm with stack := { vm.stack with values := .bool r :: rest } }) ∧
      (specOrd (fun x y => decide (y < x)) (fun x y => boolLt y x)
          (fun x y => decide (y < x)) (fun x y => F.lt y x) a b = none →
        vm.op_gt F = .error (.unsupportedBinaryOperation ">" a.typeTag b.typeTag)) ∧
      (∀ r, specOrd (fun x y => decide (y ≤ x)) (fun x y => boolLt y x || x == y)
          (fun x y => decide (y ≤ x)) (fun x y => F.le y x) a b = some r →
        vm.op_gte F = .ok { vm with stack := { vm.stack with values := .bool r :: rest } }) ∧
      (specOrd (fun x y => decide (y ≤ x)) (fun x y => boolLt y x || x == y)
          (fun x y => decide (y ≤ x)) (fun x y => F.le y x) a b = none →
        vm.op_gte F = .error (.unsupportedBinaryOperation ">=" a.typeTag b.typeTag)) ∧
      (∀ r, specOrd (fun x y => decide (x < y)) boolLt
          (fun x y => decide (x < y)) F.lt a b = some r →
        vm.op_lt F = .ok { vm with stack := { vm.stack with values := .bool r :: rest } }) ∧
      (specOrd (fun x y => decide (x < y)) boolLt
          (fun x y => decide (x < y)) F.lt a b = none →
        vm.op_lt F = .error (.unsupportedBinaryOperation "<" a.typeTag b.typeTag)) ∧
      (∀ r, specOrd (fun x y => decide (x ≤ y)) (fun x y => boolLt x y || x == y)
          (fun x y => decide (x ≤ y)) F.le a b = some r →
        vm.op_lte F = .ok { vm with stack := { vm.stack with values := .bool r :: rest } }) ∧
      (specOrd (fun x y => decide (x ≤ y)) (fun x y => boolLt x y || x == y)
          (fun x y => decide (x ≤ y)) F.le a b = none →
        vm.op_lte F = .error (.unsupportedBinaryOperation "<=" a.typeTag b.typeTag)) := by
  intro vm F a b rest hv ht
  obtain ⟨ip, ⟨values, st⟩, ex, cf, br⟩ := vm
  simp only at hv ht
  subst hv
  have h1 : Stack.pop ⟨b :: a :: rest, st⟩ = .ok (b, ⟨a :: rest, st⟩) :=
    stack_pop_eq _ _ _ rfl (by simp; omega)
  have h2 : Stack.pop ⟨a :: rest, st⟩ = .ok (a, ⟨rest, st⟩) :=
    stack_pop_eq _ _ _ rfl ht
  refine ⟨?_, ?_, ?_, ?_, ?_, ?_, ?_, ?_⟩ <;>
    first
      | (intro r hr
         simp [Vm.op_gt, Vm.op_gte, Vm.op_lt, Vm.op_lte, h1, h2, bind, Except.bind,
           primitiveCmp_eq_specOrd, hr, Stack.push])
      | (intro hr
         simp [Vm.op_gt, Vm.op_gte, Vm.op_lt, Vm.op_lte, h1, h2, bind, Except.bind,
           primitiveCmp_eq_specOrd, hr])

/-- Witness for C8: `Lt` on a mixed Integer/Float pair fails with
`UnsupportedBinaryOperation`, and on two Chars pushes the native
comparison. -/
theorem claim_C8_witness :
    Vm.op_lt ⟨0, ⟨[.float ⟨true, 0⟩, .integer 1], 0⟩, false, [], none⟩ stubFloatOps
      = .error (.unsupportedBinaryOperation "<" .integer .float) ∧
    Vm.op_lt ⟨0, ⟨[.char 'b', .char 'a'], 0⟩, false, [], none⟩ stubFloatOps
      = .ok ⟨0, ⟨[.bool true], 0⟩, false, [], none⟩ :=
  ⟨(claim_C8 ⟨0, ⟨[.float ⟨true, 0⟩, .integer 1], 0⟩, false, [], none⟩ stubFloatOps
      (.integer 1) (.float ⟨true, 0⟩) [] rfl (by decide)).2.2.2.2.2.1 rfl,
   (claim_C8 ⟨0, ⟨[.char 'b', .char 'a'], 0⟩, false, [], none⟩ stubFloatOps
      (.char 'a') (.char 'b') [] rfl (by decide)).2.2.2.2.1 true (by decide)⟩

/-! ## Claim C1: Select pushes the first completion at its pop-order index -/

/-- The pending entries produced by the Select pop loop starting at pop
index `i`: one entry per non-completed future, carrying its pop-order
index. -/
def pending_from (i : Nat) : List (Bool × Nat × Value) → List SelectEntry
  | [] => []
  | f :: fs =>
    if f.1 then pending_from (i + 1) fs
    else ⟨i, f.2.1, f.2.2⟩ :: pending_from (i + 1) fs

/-- The Select pop loop pops exactly the future values and collects the
pending entries in pop order. -/
theorem selectPop_eq (fs : List (Bool × Nat × Value)) :
    ∀ (i : Nat) (rest : List Value) (st : Nat) (acc : List SelectEntry),
    st ≤ rest.length →
    selectPop i fs.length ⟨fs.map (fun f => Value.future f.1 f.2.1 f.2.2) ++ rest, st⟩ acc
      = .ok (⟨rest, st⟩, acc ++ pending_from i fs) := by
  induction fs with
  | nil =>
    intro i rest st acc _
    simp [selectPop, pending_from]
  | cons f fs ih =>
    intro i rest st acc hst
    have hpop : Stack.pop
        ⟨Value.future f.1 f.2.1 f.2.2 :: (fs.map (fun f => Value.future f.1 f.2.1 f.2.2) ++ rest), st⟩
        = .ok (.future f.1 f.2.1 f.2.2,
               ⟨fs.map (fun f => Value.future f.1 f.2.1 f.2.2) ++ rest, st⟩) :=
      stack_pop_eq _ _ _ rfl (by simp; omega)
    by_cases hc : f.1 = true
    · simp only [hc] at hpop
      simp only [List.map_cons, List.length_cons, List.cons_append, selectPop, hpop,
        bind, Except.bind, Value.into_future, hc, if_true, pending_from,
        ih (i + 1) rest st acc hst]
    · simp only [Bool.not_eq_true] at hc
      simp only [hc] at hpop
      simp only [List.map_cons, List.length_cons, List.cons_append, selectPop, hpop,
        bind, Except.bind, Value.into_future, hc, Bool.false_eq_true, if_false, pending_from,
        ih (i + 1) rest st (acc ++ [⟨i, f.2.1, f.2.2⟩]) hst, List.append_assoc,
        List.singleton_append, List.nil_append]

/-- The running-minimum fold of `selectWinner` returns the entry of
strictly least rank. -/
theorem foldl_min_eq (w : SelectEntry) :
    ∀ (l : List SelectEntry) (b : SelectEntry),
    (w = b ∨ w ∈ l) →
    (∀ y, (y = b ∨ y ∈ l) → y = w ∨ w.rank < y.rank) →
    l.foldl (fun best y => if y.rank < best.rank then y else best) b = w := by
  intro l
  induction l with
  | nil =>
    intro b hw _
    rcases hw with hw | hw
    · simpa using hw.symm
    · simp at hw
  | cons y ys ih =>
    intro b hw hmin
    simp only [List.foldl_cons]
    apply ih
    · rcases hw with hw | hw
      · left
        subst hw
        rcases hmin y (Or.inr (List.mem_cons_self _ _)) with h | h
        · subst h
          simp
        · rw [if_neg (by omega)]
      · rcases List.mem_cons.mp hw with hw | hw
        · subst hw
          by_cases hlt : w.rank < b.rank
          · left
            rw [if_pos hlt]
          · rcases hmin b (Or.inl rfl) with h | h
            · left
              rw [if_neg hlt]
              exact h.symm
            · omega
        · right
          exact hw
    · intro z hz
      rcases hz with hz | hz
      · subst hz
        by_cases hlt : y.rank < b.rank
        · rw [if_pos hlt]
          exact hmin y (Or.inr (List.mem_cons_self _ _))
        · rw [if_neg hlt]
          exact hmin b (Or.inl rfl)
      · exact hmin z (Or.inr (List.mem_cons_of_mem _ hz))

/-- C1: for every execution of `Select{len}` where at least one popped
future is not already completed, the instruction pushes the value of the
first future to complete and sets the branch register to that future's
pop-order index (index 0 is the future popped first, the one at the top
of the stack), independently of which futures were already completed; in
particular with futures F0, F1, F2 pushed in that order (F2 on top) and
F1 completing first, `Select{3}` pushes F1's value and sets the branch
register to 1. -/
theorem claim_C1 :
    (∀ (vm : Vm) (fs : List (Bool × Nat × Value)) (rest : List Value) (w : SelectEntry),
      vm.stack.values = fs.map (fun f => Value.future f.1 f.2.1 f.2.2) ++ rest →
      vm.stack.stack_top ≤ rest.length →
      w ∈ pending_from 0 fs →
      (∀ y ∈ pending_from 0 fs, y = w ∨ w.rank < y.rank) →
      vm.op_select fs.length
        = .ok { vm with
                stack := { vm.stack with values := w.value :: rest },
                branch := some w.index }) ∧
    (Vm.op_select
        ⟨0, ⟨[.future false 5 (.integer 2), .future false 1 (.integer 1),
              .future false 9 (.integer 0)], 0⟩, false, [], none⟩ 3
      = .ok ⟨0, ⟨[.integer 1], 0⟩, false, [], some 1⟩) ∧
    (Vm.op_select
        ⟨0, ⟨[.future true 0 (.integer 2), .future false 1 (.integer 1),
              .future false 9 (.integer 0)], 0⟩, false, [], none⟩ 3
      = .ok ⟨0, ⟨[.integer 1], 0⟩, false, [], some 1⟩) := by
  refine ⟨?_, rfl, rfl⟩
  intro vm fs rest w hv ht hw hmin
  obtain ⟨ip, ⟨values, st⟩, ex, cf, br⟩ := vm
  simp only at hv ht
  subst hv
  have hloop := selectPop_eq fs 0 rest st [] ht
  cases hpend : pending_from 0 fs with
  | nil =>
    rw [hpend] at hw
    simp at hw
  | cons p ps =>
    rw [hpend] at hw hmin
    have hfold : ps.foldl (fun best y => if y.rank < best.rank then y else best) p = w :=
      foldl_min_eq w ps p (List.mem_cons.mp hw)
        (fun y hy => hmin y (List.mem_cons.mpr hy))
    simp only [Vm.op_select, hloop, bind, Except.bind, List.nil_append, hpend,
      selectWinner, hfold, Stack.push]

/-- Witness for C1: the three-future scenario, with F1 (pop index 1)
completing first. -/
theorem claim_C1_witness :
    Vm.op_select
        ⟨0, ⟨[.future false 5 (.integer 2), .future false 1 (.integer 1),
              .future false 9 (.integer 0)], 0⟩, false, [], none⟩ 3
      = .ok ⟨0, ⟨[.integer 1], 0⟩, false, [], some 1⟩ :=
  claim_C1.1
    ⟨0, ⟨[.future false 5 (.integer 2), .future false 1 (.integer 1),
          .future false 9 (.integer 0)], 0⟩, false, [], none⟩
    [(false, 5, .integer 2), (false, 1, .integer 1), (false, 9, .integer 0)]
    [] ⟨1, 1, .integer 1⟩ rfl (by decide)
    (by simp [pending_from])
    (by
      intro y hy
      simp [pending_from] at hy
      rcases hy with h | h | h
      · subst h
        right
        decide
      · subst h
        left
        rfl
      · subst h
        right
        decide)

/-! ## Claim C9: closure capture in the indexer scope stack -/

/-- Walking `mark_use` through closure levels that have neither captured
nor declared the name: when the name is found further out, every
traversed closure records the capture. -/
theorem markUseGo_append_closures (var : String) (cs : List IndexClosure)
    (tail upd : List IndexScopeLevel)
    (h : markUseGo var tail = some upd)
    (hcs : ∀ c ∈ cs, var ∉ c.existing ∧ c.scope.hasLocal var = false) :
    markUseGo var (cs.map IndexScopeLevel.indexClosure ++ tail)
      = some (cs.map (fun c => IndexScopeLevel.indexClosure (c.capture var)) ++ upd) := by
  induction cs with
  | nil => simpa using h
  | cons c cs ih =>
    have hc := hcs c (List.mem_cons_self _ _)
    have hrec := ih fun c' hc' => hcs c' (List.mem_cons_of_mem _ hc')
    simp only [List.map_cons, List.cons_append, markUseGo]
    rw [if_neg hc.1, if_neg (by simp [hc.2])]
    simp only [List.append_eq]
    rw [hrec]
    rfl

/-- C9: in the indexer scope stack, after `declare(v)` at an outer level,
a `mark_use(v)` issued from inside nested closure levels (with no
Function level in between) records exactly one capture entry for `v` in
each traversed closure; repeating `mark_use(v)` adds no further entries;
in particular `push_function; declare "x"; push_closure; mark_use "x";
into_closure` yields captures `["x"]` and generator false. -/
theorem claim_C9 :
    (∀ (cs : List IndexClosure) (s : IndexScope) (rest : List IndexScopeLevel) (var : String),
      (∀ c ∈ cs, var ∉ c.existing ∧ c.scope.hasLocal var = false) →
      s.hasLocal var = true →
      IndexScopes.mark_use (cs.map .indexClosure ++ .indexScope s :: rest) var
        = cs.map (fun c => .indexClosure (c.capture var)) ++ .indexScope s :: rest) ∧
    (∀ (cs : List IndexClosure) (f : IndexFunction) (rest : List IndexScopeLevel) (var : String),
      (∀ c ∈ cs, var ∉ c.existing ∧ c.scope.hasLocal var = false) →
      f.scope.hasLocal var = true →
      IndexScopes.mark_use (cs.map .indexClosure ++ .indexFunction f :: rest) var
        = cs.map (fun c => .indexClosure (c.capture var)) ++ .indexFunction f :: rest) ∧
    (∀ (c : IndexClosure) (var : String),
      (c.capture var).captures.count var = c.captures.count var + 1) ∧
    (∀ (cs : List IndexClosure) (s : IndexScope) (rest : List IndexScopeLevel) (var : String),
      (∀ c ∈ cs, var ∉ c.existing ∧ c.scope.hasLocal var = false) →
      s.hasLocal var = true →
      IndexScopes.mark_use
          (IndexScopes.mark_use (cs.map .indexClosure ++ .indexScope s :: rest) var) var
        = IndexScopes.mark_use (cs.map .indexClosure ++ .indexScope s :: rest) var) ∧
    ((IndexScopes.declare (IndexScopes.push_function IndexScopes.new) "x" 0).bind
        (fun l => IndexScopes.into_closure
          (IndexScopes.mark_use (IndexScopes.push_closure l) "x"))
      = .ok (⟨["x"], false⟩,
             [.indexFunction ⟨⟨[("x", 0)]⟩, false⟩, .indexScope ⟨[]⟩])) := by
  have hscope : ∀ (s : IndexScope) (rest : List IndexScopeLevel) (var : String),
      s.hasLocal var = true →
      markUseGo var (.indexScope s :: rest) = some (.indexScope s :: rest) := by
    intro s rest var hs
    simp [markUseGo, hs]
  have hfun : ∀ (f : IndexFunction) (rest : List IndexScopeLevel) (var : String),
      f.scope.hasLocal var = true →
      markUseGo var (.indexFunction f :: rest) = some (.indexFunction f :: rest) := by
    intro f rest var hf
    simp [markUseGo, hf]
  have hmain : ∀ (cs : List IndexClosure) (s : IndexScope) (rest : List IndexScopeLevel)
      (var : String),
      (∀ c ∈ cs, var ∉ c.existing ∧ c.scope.hasLocal var = false) →
      s.hasLocal var = true →
      IndexScopes.mark_use (cs.map .indexClosure ++ .indexScope s :: rest) var
        = cs.map (fun c => .indexClosure (c.capture var)) ++ .indexScope s :: rest := by
    intro cs s rest var hcs hs
    unfold IndexScopes.mark_use
    rw [markUseGo_append_closures var cs _ _ (hscope s rest var hs) hcs]
    rfl
  refine ⟨hmain, ?_, ?_, ?_, ?_⟩
  · intro cs f rest var hcs hf
    unfold IndexScopes.mark_use
    rw [markUseGo_append_closures var cs _ _ (hfun f rest var hf) hcs]
    rfl
  · intro c var
    simp [IndexClosure.capture, List.count_append]
  · intro cs s rest var hcs hs
    rw [hmain cs s rest var hcs hs]
    cases cs with
    | nil =>
      show (markUseGo var (.indexScope s :: rest)).getD (.indexScope s :: rest)
          = .indexScope s :: rest
      rw [hscope s rest var hs]
      rfl
    | cons c cs =>
      have hmem : var ∈ (c.capture var).existing := by
        simp [IndexClosure.capture]
      unfold IndexScopes.mark_use
      simp only [List.map_cons, List.cons_append, markUseGo]
      rw [if_pos hmem]
      rfl
  · rfl

/-- Witness for C9: one fresh closure between the use and a function
level declaring `"x"` records exactly the capture `["x"]`. -/
theorem claim_C9_witness :
    IndexScopes.mark_use
        [.indexClosure IndexClosure.mk_new,
         .indexFunction ⟨⟨[("x", 0)]⟩, false⟩, .indexScope ⟨[]⟩] "x"
      = [.indexClosure ⟨["x"], ["x"], ⟨[]⟩, false⟩,
         .indexFunction ⟨⟨[("x", 0)]⟩, false⟩, .indexScope ⟨[]⟩] :=
  claim_C9.2.1 [IndexClosure.mk_new] ⟨⟨[("x", 0)]⟩, false⟩ [.indexScope ⟨[]⟩] "x"
    (by simp [IndexClosure.mk_new, IndexScope.hasLocal]) (by decide)

/-! ## Claim C5: completion semantics of `resume` and `next` -/

/-- C5: a Stream whose execution has completed (its `VmExecution` has
been dropped) fails `resume` with `GeneratorComplete`; an execution that
completes during a `next` call is not an error — `next` returns
`Ok(None)` — and a resume that yields makes `next` return `Ok(Some v)`. -/
theorem claim_C5 :
    (∀ (s : Stream) (v : Value), s.execution = none →
      (s.resume v).1 = .error .generatorComplete) ∧
    (∀ (s : Stream) (ex : VmExecution) (val : Value),
      s.execution = some ex →
      (∀ st, ex.plan ex.resumes st = .ok (.complete val)) →
      (s.next).1 = .ok none ∧ (s.next).2.execution = none) ∧
    (∀ (s : Stream) (ex : VmExecution) (w : Value),
      s.execution = some ex →
      (∀ st, ex.plan ex.resumes st = .ok (.yielded w)) →
      (s.next).1 = .ok (some w)) := by
  refine ⟨?_, ?_, ?_⟩
  · intro s v h
    simp [Stream.resume, h]
  · intro s ex val hex hplan
    by_cases hf : s.first <;>
      simp [Stream.next, Stream.resume, hex, hf, VmExecution.async_resume,
        VmExecution.feed, hplan, GeneratorState.is_complete]
  · intro s ex w hex hplan
    by_cases hf : s.first <;>
      simp [Stream.next, Stream.resume, hex, hf, VmExecution.async_resume,
        VmExecution.feed, hplan, GeneratorState.is_complete]

/-- Witness for C5: resuming a completed stream (no execution left)
fails with `GeneratorComplete`, and a completing `next` returns
`Ok(None)`. -/
theorem claim_C5_witness :
    (Stream.resume ⟨none, false⟩ .unit).1 = .error .generatorComplete ∧
    (Stream.next ⟨some ⟨[], 0, fun _ _ => .ok (.complete .unit)⟩, true⟩).1 = .ok none :=
  ⟨claim_C5.1 ⟨none, false⟩ .unit rfl,
   (claim_C5.2.1 ⟨some ⟨[], 0, fun _ _ => .ok (.complete .unit)⟩, true⟩
      ⟨[], 0, fun _ _ => .ok (.complete .unit)⟩ .unit rfl (fun _ => rfl)).1⟩

/-! ## Claim C6: what a resume feeds onto the virtual machine's stack -/

/-- Counterexample to C6 as stated: on the very first resume of a
stream, `next` pushes nothing onto the resumed VM's stack — here the
stack is still `[]` afterwards, not `[Unit]` as the claim's "feeds Unit
onto the resumed VM's stack on the first resume" would require. -/
theorem claim_C6_counterexample :
    ((Stream.next ⟨some ⟨[], 0, fun _ _ => .ok (.yielded .unit)⟩, true⟩).2.execution.map
        VmExecution.stack) = some []
      ∧ ([] : List Value) ≠ [Value.unit] :=
  ⟨rfl, by simp⟩

/-- C6 (amended): `next()` passes Unit to every resume, but nothing is
pushed onto the resumed VM's stack on the first resume — the passed
value is discarded; on every subsequent resume of the same stream the
passed value (Unit in the case of `next`) is pushed onto the VM's
stack. -/
theorem claim_C6 :
    (∀ (ex : VmExecution) (v w : Value),
      ex.plan ex.resumes ex.stack = .ok (.yielded w) →
      Stream.resume ⟨some ex, true⟩ v
        = (.ok (.yielded w), ⟨some { ex with resumes := ex.resumes + 1 }, false⟩)) ∧
    (∀ (ex : VmExecution) (v w : Value),
      ex.plan ex.resumes (ex.stack ++ [v]) = .ok (.yielded w) →
      Stream.resume ⟨some ex, false⟩ v
        = (.ok (.yielded w),
           ⟨some { ex with stack := ex.stack ++ [v], resumes := ex.resumes + 1 }, false⟩)) ∧
    (∀ (ex : VmExecution) (w : Value),
      ex.plan ex.resumes ex.stack = .ok (.yielded w) →
      Stream.next ⟨some ex, true⟩
        = (.ok (some w), ⟨some { ex with resumes := ex.resumes + 1 }, false⟩)) ∧
    (∀ (ex : VmExecution) (w : Value),
      ex.plan ex.resumes (ex.stack ++ [Value.unit]) = .ok (.yielded w) →
      Stream.next ⟨some ex, false⟩
        = (.ok (some w),
           ⟨some { ex with stack := ex.stack ++ [Value.unit], resumes := ex.resumes + 1 },
            false⟩)) := by
  refine ⟨?_, ?_, ?_, ?_⟩
  · intro ex v w hplan
    simp [Stream.resume, VmExecution.async_resume, hplan, GeneratorState.is_complete]
  · intro ex v w hplan
    simp [Stream.resume, VmExecution.async_resume, VmExecution.feed, hplan,
      GeneratorState.is_complete]
  · intro ex w hplan
    simp [Stream.next, Stream.resume, VmExecution.async_resume, hplan,
      GeneratorState.is_complete]
  · intro ex w hplan
    simp [Stream.next, Stream.resume, VmExecution.async_resume, VmExecution.feed, hplan,
      GeneratorState.is_complete]

/-- Witness for C6 (amended): a first resume leaves the stack `[]`; a
non-first `next` pushes Unit onto it. -/
theorem claim_C6_witness :
    Stream.next ⟨some ⟨[], 0, fun _ _ => .ok (.yielded (.integer 7))⟩, true⟩
      = (.ok (some (.integer 7)),
         ⟨some ⟨[], 1, fun _ _ => .ok (.yielded (.integer 7))⟩, false⟩) ∧
    Stream.next ⟨some ⟨[], 0, fun _ _ => .ok (.yielded (.integer 7))⟩, false⟩
      = (.ok (some (.integer 7)),
         ⟨some ⟨[.unit], 1, fun _ _ => .ok (.yielded (.integer 7))⟩, false⟩) :=
  ⟨claim_C6.2.2.1 ⟨[], 0, fun _ _ => .ok (.yielded (.integer 7))⟩ (.integer 7) rfl,
   claim_C6.2.2.2 ⟨[], 0, fun _ _ => .ok (.yielded (.integer 7))⟩ (.integer 7) rfl⟩

end Rune
